import Mathlib

/-!
Verification of the Binance futures order-book maintenance code
(`examples/binance_f_orderbook.rs`).

Prices and quantities (`rust_decimal::Decimal` in the source) are modelled
as `Rat`: exact decimal arithmetic with decidable order.  `u64` sequence
numbers and timestamps are modelled as `Nat` (the claims only compare
them, they never overflow).  A `BTreeMap<Decimal, Decimal>` is modelled as
an association list of `(price, qty)` pairs kept strictly sorted by price;
`mapInsert` / `mapRemove` / `mapFind` mirror `BTreeMap::insert`,
`BTreeMap::remove` and lookup, and ascending iteration order is the list
order itself.
-/

/-- One price level of a message (`price`, `qty` fields of the
`Bids`/`Asks` structs used by `OrderBookPartial` and
`DepthOrderBookEvent`). -/
structure Level where
  price : Rat
  qty : Rat
deriving DecidableEq

/-- `BTreeMap::insert(k, v)`: replace the value at `k` if present,
otherwise insert `(k, v)` at its sorted position. -/
def mapInsert (k v : Rat) : List (Rat × Rat) → List (Rat × Rat)
  | [] => [(k, v)]
  | p :: rest =>
    if k < p.1 then (k, v) :: p :: rest
    else if k = p.1 then (k, v) :: rest
    else p :: mapInsert k v rest

/-- `BTreeMap::remove(k)`: drop the entry with key `k`, if any. -/
def mapRemove (k : Rat) : List (Rat × Rat) → List (Rat × Rat)
  | [] => []
  | p :: rest => if k = p.1 then rest else p :: mapRemove k rest

/-- Lookup in the association list (first entry whose key matches). -/
def mapFind (k : Rat) : List (Rat × Rat) → Option Rat
  | [] => none
  | p :: rest => if p.1 = k then some p.2 else mapFind k rest

/-- Lookup by price in a list of message levels (first match). -/
def findLevel (k : Rat) : List Level → Option Rat
  | [] => none
  | l :: rest => if l.price = k then some l.qty else findLevel k rest

/-- The representation invariant of `BTreeMap`: keys strictly increasing. -/
def SortedMap (m : List (Rat × Rat)) : Prop :=
  List.Pairwise (fun a b : Rat × Rat => a.1 < b.1) m

instance (m : List (Rat × Rat)) : Decidable (SortedMap m) := by
  unfold SortedMap; infer_instance

/-- REST depth snapshot (`OrderBookPartial`): `last_update_id`,
`event_time` and the full bid/ask level lists. -/
structure OrderBookPartial where
  last_update_id : Nat
  event_time : Nat
  bids : List Level
  asks : List Level
deriving DecidableEq

/-- Websocket diff message (`DepthOrderBookEvent`). -/
structure DepthOrderBookEvent where
  event_time : Nat
  first_update_id : Nat
  final_update_id : Nat
  previous_final_update_id : Nat
  bids : List Level
  asks : List Level
deriving DecidableEq

/-- The `Orderbook` struct: symbol, last event time, stream position and
the two price→quantity maps. -/
structure Orderbook where
  symbol : String
  timestamp : Nat
  final_update_id : Nat
  bids : List (Rat × Rat)
  asks : List (Rat × Rat)
deriving DecidableEq

/-- `Orderbook::new` (the wall-clock `now` is passed in explicitly). -/
def Orderbook.new (symbol : String) (now : Nat) : Orderbook :=
  { symbol := symbol, timestamp := now, final_update_id := 0, bids := [], asks := [] }

/-- Fold of `self.bids.insert(bid.price, bid.qty)` over a level list. -/
def insertLevels (levels : List Level) (m : List (Rat × Rat)) : List (Rat × Rat) :=
  levels.foldl (fun acc l => mapInsert l.price l.qty acc) m

/-- Fold of the diff loop body: zero quantity removes the price,
otherwise insert/replace. -/
def updateLevels (levels : List Level) (m : List (Rat × Rat)) : List (Rat × Rat) :=
  levels.foldl (fun acc l => if l.qty = 0 then mapRemove l.price acc else mapInsert l.price l.qty acc) m

/-- `Orderbook::partial`: clear both maps, take the snapshot's ids, then
insert every snapshot level verbatim (note: no zero-quantity filtering in
the source). -/
def Orderbook.applySnapshot (ob : Orderbook) (data : OrderBookPartial) : Orderbook :=
  { ob with
      final_update_id := data.last_update_id
      timestamp := data.event_time
      bids := insertLevels data.bids []
      asks := insertLevels data.asks [] }

/-- `Orderbook::update`: take the diff's ids, then upsert every level
(zero quantity deletes). -/
def Orderbook.update (ob : Orderbook) (data : DepthOrderBookEvent) : Orderbook :=
  { ob with
      final_update_id := data.final_update_id
      timestamp := data.event_time
      bids := updateLevels data.bids ob.bids
      asks := updateLevels data.asks ob.asks }

/-- `Orderbook::best_bid`: last entry in ascending bid order. -/
def Orderbook.best_bid (ob : Orderbook) : Option (Rat × Rat) :=
  ob.bids.reverse.head?

/-- `Orderbook::best_ask`: first entry in ascending ask order. -/
def Orderbook.best_ask (ob : Orderbook) : Option (Rat × Rat) :=
  ob.asks.head?

/-- `Orderbook::verify` translated with the `&mut self` receiver made
explicit: the pair is (returned bool, book after the call).  Every path
of the source body leaves `self` untouched, so each branch returns `ob`.
The `.unwrap()` calls sit under the non-emptiness guard, where
`best_bid`/`best_ask` are `some`; `getD` supplies the (unreachable)
default. -/
def Orderbook.verifyRun (ob : Orderbook) (pu_id : Nat)
    (check_bid_ask_overlapping : Bool) : Bool × Orderbook :=
  if check_bid_ask_overlapping then
    if 0 < ob.bids.length ∧ 0 < ob.asks.length then
      if (ob.best_bid.getD (0, 0)).1 ≥ (ob.best_ask.getD (0, 0)).1 then
        (false, ob)
      else
        (decide (ob.final_update_id = pu_id), ob)
    else
      (decide (ob.final_update_id = pu_id), ob)
  else
    (decide (ob.final_update_id = pu_id), ob)

/-- The boolean result of `Orderbook::verify`. -/
def Orderbook.verify (ob : Orderbook) (pu_id : Nat) (check_bid_ask_overlapping : Bool) : Bool :=
  (ob.verifyRun pu_id check_bid_ask_overlapping).1

/-- The CSV record returned by `Orderbook::get_depth` (the source bundles
these six components as a tuple; borrowed fields are modelled by value). -/
structure Record where
  symbol : String
  timestamp : Nat
  asks_price : List Rat
  bids_price : List Rat
  asks_qty : List Rat
  bids_qty : List Rat
deriving DecidableEq

/-- `Orderbook::get_depth`: ask side = ascending keys/values truncated to
`depth`; bid side = descending (reversed) keys/values truncated to
`depth`; always returns `Some`. -/
def Orderbook.get_depth (ob : Orderbook) (depth : Nat) : Option Record :=
  let asks_price := (ob.asks.map Prod.fst).take depth
  let bids_price := (ob.bids.map Prod.fst).reverse.take depth
  let asks_qty := (ob.asks.map Prod.snd).take depth
  let bids_qty := (ob.bids.map Prod.snd).reverse.take depth
  some { symbol := ob.symbol, timestamp := ob.timestamp,
         asks_price := asks_price, bids_price := bids_price,
         asks_qty := asks_qty, bids_qty := bids_qty }

/-- State of the `run_depth` loop: the book plus the value of the OUTER
`partial_init.last_update_id` binding.  The resync branch of the source
rebinds `partial_init` with an inner `let` that goes out of scope at the
end of that branch, so the outer binding — and hence `snapId` — never
changes after initialisation. -/
structure SyncState where
  book : Orderbook
  snapId : Nat
deriving DecidableEq

/-- One iteration of the `run_depth` message loop.  `fresh` is the
snapshot the REST fetch would return; it is consumed only in the
verify-failure branch. -/
def stepDepth (st : SyncState) (msg : DepthOrderBookEvent) (fresh : OrderBookPartial) : SyncState :=
  if msg.final_update_id < st.snapId then
    st
  else if msg.first_update_id ≤ st.snapId ∧ st.snapId ≤ msg.final_update_id then
    { st with book := st.book.update msg }
  else if st.book.verify msg.previous_final_update_id false then
    { st with book := st.book.update msg }
  else
    { st with book := st.book.applySnapshot fresh }

/-- The initialisation of `run_depth` before the loop: fetch a snapshot,
apply it, remember its `last_update_id`. -/
def initState (symbol : String) (now : Nat) (snap : OrderBookPartial) : SyncState :=
  { book := (Orderbook.new symbol now).applySnapshot snap, snapId := snap.last_update_id }

/-- The loop run over a finite message trace, each message paired with the
snapshot a resync at that point would fetch. -/
def runDepth (st : SyncState) (trace : List (DepthOrderBookEvent × OrderBookPartial)) : SyncState :=
  trace.foldl (fun s p => stepDepth s p.1 p.2) st

/-- Book construction steps reachable through the two mutating
operations. -/
inductive BookOp where
  | snap (d : OrderBookPartial)
  | diff (d : DepthOrderBookEvent)

/-- Apply one book operation. -/
def Orderbook.applyOp (ob : Orderbook) : BookOp → Orderbook
  | .snap d => ob.applySnapshot d
  | .diff d => ob.update d

/-- Apply a sequence of book operations. -/
def Orderbook.applyOps (ob : Orderbook) (ops : List BookOp) : Orderbook :=
  ops.foldl Orderbook.applyOp ob

/-! ### Concrete scenario inputs -/

/-- Initial snapshot of the spec's scenarios: `last_update_id = 100`,
bids `[(10.0, 5)]`, asks `[(10.5, 3)]`. -/
def snap100 : OrderBookPartial :=
  { last_update_id := 100, event_time := 1,
    bids := [⟨10, 5⟩], asks := [⟨21/2, 3⟩] }

/-- A dummy fetch result, never consumed on the paths it is passed to. -/
def freshD : OrderBookPartial :=
  { last_update_id := 0, event_time := 0, bids := [], asks := [] }

/-- Diff bridging `snap100` (95 ≤ 100 ≤ 105). -/
def msgBridge : DepthOrderBookEvent :=
  { event_time := 2, first_update_id := 95, final_update_id := 105,
    previous_final_update_id := 94, bids := [⟨10, 6⟩], asks := [] }

/-- A replayed diff whose range still straddles the original snapshot id
but whose `previous_final_update_id` does not match the book. -/
def msgReplay : DepthOrderBookEvent :=
  { event_time := 3, first_update_id := 96, final_update_id := 101,
    previous_final_update_id := 50, bids := [⟨9, 4⟩], asks := [] }

/-- The loop state after initialisation with `snap100` and the bridging
diff: synced at `final_update_id = 105`. -/
def stSynced : SyncState :=
  runDepth (initState "ethusdt" 0 snap100) [(msgBridge, freshD)]

/-- Diff that fails `verify` while synced at 105
(`previous_final_update_id = 104`). -/
def msgFail : DepthOrderBookEvent :=
  { event_time := 4, first_update_id := 106, final_update_id := 110,
    previous_final_update_id := 104, bids := [], asks := [] }

/-- The fresh snapshot fetched by the resync branch. -/
def fresh200 : OrderBookPartial :=
  { last_update_id := 200, event_time := 5,
    bids := [⟨10, 5⟩], asks := [⟨21/2, 3⟩] }

/-- Loop state after the resync: book rebuilt from `fresh200`, but the
outer `partial_init` binding — `snapId` — still holds 100. -/
def stAfterResync : SyncState :=
  runDepth (initState "ethusdt" 0 snap100) [(msgBridge, freshD), (msgFail, fresh200)]

/-- A diff stale with respect to `fresh200` (150 < 200) yet bridging the
stale original id 100 (90 ≤ 100 ≤ 150). -/
def msgStale : DepthOrderBookEvent :=
  { event_time := 6, first_update_id := 90, final_update_id := 150,
    previous_final_update_id := 89, bids := [⟨8, 2⟩], asks := [] }

/-- A snapshot carrying a zero-quantity level. -/
def zeroSnap : OrderBookPartial :=
  { last_update_id := 7, event_time := 1, bids := [⟨10, 0⟩], asks := [] }

/-- A prior book holding stale levels that must not survive a reset. -/
def junkBook : Orderbook :=
  { symbol := "ethusdt", timestamp := 9, final_update_id := 42,
    bids := [(7, 1)], asks := [(8, 2)] }

/-- The book right after `snap100`: bids `[(10, 5)]`, asks `[(10.5, 3)]`. -/
def bookSnap : Orderbook := (Orderbook.new "ethusdt" 0).applySnapshot snap100

/-- The spec's deletion diff: `final_update_id = 105`, bids `[(10.0, 0)]`. -/
def diffDel : DepthOrderBookEvent :=
  { event_time := 3, first_update_id := 101, final_update_id := 105,
    previous_final_update_id := 100, bids := [⟨10, 0⟩], asks := [] }


example : mapInsert 2 5 [(1, 1), (3, 1)] = [(1, 1), (2, 5), (3, 1)] := by decide
example : mapInsert 3 5 [(1, 1), (3, 1)] = [(1, 1), (3, 5)] := by decide
example : mapRemove 3 [(1, 1), (3, 1)] = [(1, 1)] := by decide
example : mapFind 3 [(1, 1), (3, 7)] = some 7 := by decide

/-! ### Association-list map lemmas -/

theorem mem_mapInsert {x : Rat × Rat} {k v : Rat} {m : List (Rat × Rat)}
    (h : x ∈ mapInsert k v m) : x = (k, v) ∨ x ∈ m := by
  induction m with
  | nil =>
    simp only [mapInsert, List.mem_singleton] at h
    exact Or.inl h
  | cons p rest ih =>
    by_cases h1 : k < p.1
    · simp only [mapInsert, if_pos h1, List.mem_cons] at h ⊢
      tauto
    · by_cases h2 : k = p.1
      · simp only [mapInsert, if_neg h1, if_pos h2, List.mem_cons] at h ⊢
        tauto
      · simp only [mapInsert, if_neg h1, if_neg h2, List.mem_cons] at h ⊢
        rcases h with h | h
        · tauto
        · rcases ih h with h' | h' <;> tauto

theorem mapRemove_sublist (k : Rat) (m : List (Rat × Rat)) :
    (mapRemove k m).Sublist m := by
  induction m with
  | nil => simp [mapRemove]
  | cons p rest ih =>
    by_cases h : k = p.1
    · rw [mapRemove, if_pos h]
      exact List.sublist_cons_self p rest
    · rw [mapRemove, if_neg h]
      exact ih.cons₂ p

theorem sortedMap_mapInsert {k v : Rat} {m : List (Rat × Rat)}
    (hs : SortedMap m) : SortedMap (mapInsert k v m) := by
  induction m with
  | nil => simp [mapInsert, SortedMap]
  | cons p rest ih =>
    rw [SortedMap, List.pairwise_cons] at hs
    obtain ⟨hlt, hrest⟩ := hs
    by_cases h1 : k < p.1
    · rw [mapInsert, if_pos h1]
      refine List.Pairwise.cons ?_ (List.Pairwise.cons hlt hrest)
      intro x hx
      rcases List.mem_cons.mp hx with h | h
      · exact h ▸ h1
      · exact h1.trans (hlt x h)
    · by_cases h2 : k = p.1
      · rw [mapInsert, if_neg h1, if_pos h2]
        exact List.Pairwise.cons (fun x hx => h2 ▸ hlt x hx) hrest
      · rw [mapInsert, if_neg h1, if_neg h2]
        refine List.Pairwise.cons ?_ (ih hrest)
        intro x hx
        rcases mem_mapInsert hx with h | h
        · have hk : p.1 < k := lt_of_le_of_ne (not_lt.mp h1) (Ne.symm h2)
          exact h ▸ hk
        · exact hlt x h

theorem sortedMap_mapRemove {k : Rat} {m : List (Rat × Rat)}
    (hs : SortedMap m) : SortedMap (mapRemove k m) :=
  List.Pairwise.sublist (mapRemove_sublist k m) hs

theorem mapFind_eq_none_of_forall_ne {k : Rat} {m : List (Rat × Rat)}
    (h : ∀ pq ∈ m, pq.1 ≠ k) : mapFind k m = none := by
  induction m with
  | nil => rfl
  | cons p rest ih =>
    rw [mapFind, if_neg (h p (List.mem_cons_self p rest))]
    exact ih fun pq hpq => h pq (List.mem_cons_of_mem p hpq)

theorem mapFind_mapInsert (k k' v : Rat) (m : List (Rat × Rat)) :
    mapFind k (mapInsert k' v m) = if k = k' then some v else mapFind k m := by
  induction m with
  | nil => by_cases h : k = k' <;> simp [mapInsert, mapFind, h, eq_comm]
  | cons p rest ih =>
    by_cases h1 : k' < p.1
    · by_cases h : k = k' <;>
        simp [mapInsert, h1, mapFind, h, eq_comm]
    · by_cases h2 : k' = p.1
      · subst h2
        by_cases h : k = p.1 <;> simp [mapInsert, h1, mapFind, h, eq_comm]
      · have h3 : p.1 < k' := lt_of_le_of_ne (not_lt.mp h1) (fun hc => h2 hc.symm)
        by_cases hp : p.1 = k
        · subst hp
          simp [mapInsert, h1, h2, mapFind, ne_of_lt h3]
        · simp [mapInsert, h1, h2, mapFind, hp, ih]

theorem mapFind_mapRemove {k k' : Rat} {m : List (Rat × Rat)} (hs : SortedMap m) :
    mapFind k (mapRemove k' m) = if k = k' then none else mapFind k m := by
  induction m with
  | nil => by_cases h : k = k' <;> simp [mapRemove, mapFind, h]
  | cons p rest ih =>
    rw [SortedMap, List.pairwise_cons] at hs
    obtain ⟨hlt, hrest⟩ := hs
    by_cases h1 : k' = p.1
    · subst h1
      by_cases h : k = p.1
      · subst h
        have hnone : mapFind p.1 rest = none :=
          mapFind_eq_none_of_forall_ne fun pq hpq => ne_of_gt (hlt pq hpq)
        simp [mapRemove, hnone]
      · have hp : ¬ p.1 = k := fun hc => h hc.symm
        simp [mapRemove, h, mapFind, hp]
    · by_cases hp : p.1 = k
      · subst hp
        have hkk : ¬ p.1 = k' := fun hc => h1 hc.symm
        simp [mapRemove, h1, mapFind, hkk]
      · simp [mapRemove, h1, mapFind, hp, ih hrest]

theorem mapFind_eq_some_of_mem {p q : Rat} {m : List (Rat × Rat)}
    (hs : SortedMap m) (hm : (p, q) ∈ m) : mapFind p m = some q := by
  induction m with
  | nil => cases hm
  | cons x rest ih =>
    rw [SortedMap, List.pairwise_cons] at hs
    obtain ⟨hlt, hrest⟩ := hs
    rcases List.mem_cons.mp hm with h | h
    · rw [← h, mapFind, if_pos rfl]
    · have hx : x.1 < p := hlt (p, q) h
      rw [mapFind, if_neg (ne_of_lt hx), ih hrest h]

theorem mem_of_mapFind_eq_some {p q : Rat} {m : List (Rat × Rat)}
    (h : mapFind p m = some q) : (p, q) ∈ m := by
  induction m with
  | nil => cases h
  | cons x rest ih =>
    rw [mapFind] at h
    by_cases hx : x.1 = p
    · rw [if_pos hx] at h
      exact List.mem_cons.mpr (Or.inl (by cases x; cases h; cases hx; rfl))
    · rw [if_neg hx] at h
      exact List.mem_cons_of_mem x (ih h)

theorem mem_iff_mapFind {p q : Rat} {m : List (Rat × Rat)} (hs : SortedMap m) :
    (p, q) ∈ m ↔ mapFind p m = some q :=
  ⟨mapFind_eq_some_of_mem hs, mem_of_mapFind_eq_some⟩

/-! ### Zero-quantity invariant -/

/-- No entry of the map has quantity zero. -/
def NoZeroM (m : List (Rat × Rat)) : Prop := ∀ pq ∈ m, pq.2 ≠ 0

instance (m : List (Rat × Rat)) : Decidable (NoZeroM m) :=
  List.decidableBAll _ m

/-- Neither side of the book stores a zero-quantity level. -/
def NoZeroBook (ob : Orderbook) : Prop := NoZeroM ob.bids ∧ NoZeroM ob.asks

instance (ob : Orderbook) : Decidable (NoZeroBook ob) :=
  instDecidableAnd

/-- Snapshot messages whose levels all carry non-zero quantity (what the
venue actually sends); diff messages are unrestricted. -/
def GoodOp : BookOp → Prop
  | .snap d => (∀ lv ∈ d.bids, lv.qty ≠ 0) ∧ (∀ lv ∈ d.asks, lv.qty ≠ 0)
  | .diff _ => True

instance (op : BookOp) : Decidable (GoodOp op) :=
  match op with
  | .snap d =>
      inferInstanceAs (Decidable ((∀ lv ∈ d.bids, lv.qty ≠ 0) ∧ (∀ lv ∈ d.asks, lv.qty ≠ 0)))
  | .diff _ => inferInstanceAs (Decidable True)

theorem noZeroM_mapInsert {k v : Rat} {m : List (Rat × Rat)}
    (hv : v ≠ 0) (h : NoZeroM m) : NoZeroM (mapInsert k v m) := by
  intro pq hpq
  rcases mem_mapInsert hpq with h' | h'
  · rw [h']
    exact hv
  · exact h pq h'

theorem noZeroM_mapRemove {k : Rat} {m : List (Rat × Rat)}
    (h : NoZeroM m) : NoZeroM (mapRemove k m) :=
  fun pq hpq => h pq ((mapRemove_sublist k m).subset hpq)

theorem noZeroM_insertLevels {l : List Level} {m : List (Rat × Rat)}
    (hl : ∀ lv ∈ l, lv.qty ≠ 0) (h : NoZeroM m) : NoZeroM (insertLevels l m) := by
  induction l generalizing m with
  | nil => exact h
  | cons x rest ih =>
    exact ih (fun lv hlv => hl lv (List.mem_cons_of_mem x hlv))
      (noZeroM_mapInsert (hl x (List.mem_cons_self x rest)) h)

theorem noZeroM_updateLevels {l : List Level} {m : List (Rat × Rat)}
    (h : NoZeroM m) : NoZeroM (updateLevels l m) := by
  induction l generalizing m with
  | nil => exact h
  | cons x rest ih =>
    by_cases hq : x.qty = 0
    · rw [show updateLevels (x :: rest) m = updateLevels rest (mapRemove x.price m) from by
        simp [updateLevels, hq]]
      exact ih (noZeroM_mapRemove h)
    · rw [show updateLevels (x :: rest) m = updateLevels rest (mapInsert x.price x.qty m) from by
        simp [updateLevels, hq]]
      exact ih (noZeroM_mapInsert hq h)

/-! ### Level-list fold lemmas -/

theorem findLevel_append (k : Rat) (l₁ l₂ : List Level) :
    findLevel k (l₁ ++ l₂) =
      match findLevel k l₁ with
      | some q => some q
      | none => findLevel k l₂ := by
  induction l₁ with
  | nil => simp [findLevel]
  | cons l rest ih =>
    by_cases h : l.price = k <;> simp [findLevel, h, ih]

theorem findLevel_eq_some_iff_mem {p q : Rat} {l : List Level}
    (hnd : (l.map Level.price).Nodup) :
    findLevel p l = some q ↔ (⟨p, q⟩ : Level) ∈ l := by
  induction l with
  | nil => simp [findLevel]
  | cons x rest ih =>
    simp only [List.map_cons, List.nodup_cons, List.mem_map] at hnd
    obtain ⟨hx, hrest⟩ := hnd
    by_cases h : x.price = p
    · subst h
      constructor
      · intro hf
        rw [findLevel, if_pos rfl] at hf
        cases hf
        exact List.mem_cons_self x rest
      · intro hm
        rcases List.mem_cons.mp hm with h | h
        · rw [← h, findLevel, if_pos rfl]
        · exact absurd ⟨⟨x.price, q⟩, h, rfl⟩ hx
    · rw [findLevel, if_neg h, ih hrest]
      constructor
      · exact fun hm => List.mem_cons_of_mem x hm
      · intro hm
        rcases List.mem_cons.mp hm with h' | h'
        · exact absurd (congrArg Level.price h'.symm) h
        · exact h'

theorem sortedMap_insertLevels {l : List Level} {m : List (Rat × Rat)}
    (hs : SortedMap m) : SortedMap (insertLevels l m) := by
  induction l generalizing m with
  | nil => exact hs
  | cons x rest ih => exact ih (sortedMap_mapInsert hs)

theorem sortedMap_updateLevels {l : List Level} {m : List (Rat × Rat)}
    (hs : SortedMap m) : SortedMap (updateLevels l m) := by
  induction l generalizing m with
  | nil => exact hs
  | cons x rest ih =>
    by_cases h : x.qty = 0
    · rw [show updateLevels (x :: rest) m = updateLevels rest (mapRemove x.price m) from by
        simp [updateLevels, h]]
      exact ih (sortedMap_mapRemove hs)
    · rw [show updateLevels (x :: rest) m = updateLevels rest (mapInsert x.price x.qty m) from by
        simp [updateLevels, h]]
      exact ih (sortedMap_mapInsert hs)

theorem mapFind_insertLevels (k : Rat) (l : List Level) (m : List (Rat × Rat)) :
    mapFind k (insertLevels l m) =
      match findLevel k l.reverse with
      | some q => some q
      | none => mapFind k m := by
  induction l generalizing m with
  | nil => simp [insertLevels, findLevel]
  | cons x rest ih =>
    have step : insertLevels (x :: rest) m = insertLevels rest (mapInsert x.price x.qty m) := rfl
    rw [step, ih, List.reverse_cons, findLevel_append, mapFind_mapInsert]
    rcases hr : findLevel k rest.reverse with _ | q
    · by_cases h : x.price = k
      · subst h
        simp [findLevel]
      · have hk2 : ¬ k = x.price := fun hc => h hc.symm
        simp [findLevel, h, hk2]
    · rfl

theorem mapFind_updateLevels (k : Rat) (l : List Level) {m : List (Rat × Rat)}
    (hs : SortedMap m) :
    mapFind k (updateLevels l m) =
      match findLevel k l.reverse with
      | some q => if q = 0 then none else some q
      | none => mapFind k m := by
  induction l generalizing m with
  | nil => simp [updateLevels, findLevel]
  | cons x rest ih =>
    by_cases h : x.qty = 0
    · have step : updateLevels (x :: rest) m = updateLevels rest (mapRemove x.price m) := by
        simp [updateLevels, h]
      rw [step, ih (sortedMap_mapRemove hs), List.reverse_cons, findLevel_append,
        mapFind_mapRemove hs]
      rcases hr : findLevel k rest.reverse with _ | q
      · by_cases hk : x.price = k
        · subst hk
          simp [findLevel, h]
        · have hk2 : ¬ k = x.price := fun hc => hk hc.symm
          simp [findLevel, hk, hk2]
      · rfl
    · have step : updateLevels (x :: rest) m = updateLevels rest (mapInsert x.price x.qty m) := by
        simp [updateLevels, h]
      rw [step, ih (sortedMap_mapInsert hs), List.reverse_cons, findLevel_append,
        mapFind_mapInsert]
      rcases hr : findLevel k rest.reverse with _ | q
      · by_cases hk : x.price = k
        · subst hk
          simp [findLevel, h]
        · have hk2 : ¬ k = x.price := fun hc => hk hc.symm
          simp [findLevel, hk, hk2]
      · rfl

/-! ### C1 -/

/-- C1 counterexample: from the synced state at `final_update_id = 105`,
the replayed diff `msgReplay` has `previous_final_update_id = 50 ≠ 105`,
yet one loop iteration applies it through the bridging branch: the book
mutates and `final_update_id` DECREASES to 101.  This refutes both halves
of the claim as stated. -/
theorem run_depth_synced_replay_mutates :
    stSynced.book.final_update_id = 105 ∧
    msgReplay.previous_final_update_id ≠ stSynced.book.final_update_id ∧
    runDepth stSynced [(msgReplay, freshD)] ≠ stSynced ∧
    (runDepth stSynced [(msgReplay, freshD)]).book.final_update_id <
      stSynced.book.final_update_id := by
  decide

/-- C1 (amended): for diffs lying strictly beyond the remembered snapshot
id (`snapId < first_update_id ≤ final_update_id`, as an in-sequence
stream after bridging satisfies) and with
`previous_final_update_id ≤ final_update_id`, a loop iteration applies
the diff exactly when its `previous_final_update_id` equals the book's
current `final_update_id` — and then `final_update_id` does not decrease;
when it does not match, the diff itself never reaches the book and the
iteration instead replaces the book by the freshly fetched snapshot. -/
theorem stepDepth_synced_guarded (st : SyncState) (msg : DepthOrderBookEvent)
    (fresh : OrderBookPartial)
    (h1 : st.snapId < msg.first_update_id)
    (h2 : msg.first_update_id ≤ msg.final_update_id)
    (h3 : msg.previous_final_update_id ≤ msg.final_update_id) :
    (msg.previous_final_update_id = st.book.final_update_id →
      stepDepth st msg fresh = { st with book := st.book.update msg } ∧
      st.book.final_update_id ≤ (st.book.update msg).final_update_id) ∧
    (msg.previous_final_update_id ≠ st.book.final_update_id →
      stepDepth st msg fresh = { st with book := st.book.applySnapshot fresh }) := by
  have hb1 : ¬ msg.final_update_id < st.snapId :=
    not_lt.mpr (le_of_lt (lt_of_lt_of_le h1 h2))
  have hb2 : ¬ (msg.first_update_id ≤ st.snapId ∧ st.snapId ≤ msg.final_update_id) :=
    fun hc => absurd hc.1 (not_le.mpr h1)
  constructor
  · intro heq
    have hv : st.book.verify msg.previous_final_update_id false = true := by
      simp [Orderbook.verify, Orderbook.verifyRun, heq]
    refine ⟨by simp [stepDepth, hb1, hb2, hv], ?_⟩
    show st.book.final_update_id ≤ msg.final_update_id
    rw [← heq]
    exact h3
  · intro hne
    have hv : st.book.verify msg.previous_final_update_id false = false := by
      rw [show st.book.verify msg.previous_final_update_id false
          = decide (st.book.final_update_id = msg.previous_final_update_id) from rfl,
        decide_eq_false_iff_not]
      exact fun hc => hne hc.symm
    simp [stepDepth, hb1, hb2, hv]

/-- C1 witness: the matching case at a concrete synced state. -/
theorem stepDepth_synced_guarded_witness :
    stepDepth stSynced msgFail freshD =
      { stSynced with book := stSynced.book.applySnapshot freshD } :=
  (stepDepth_synced_guarded stSynced msgFail freshD (by decide) (by decide)
    (by decide)).2 (by decide)

/-! ### C2 -/

/-- C2: in any loop state (in particular right after a snapshot has been
applied), a diff with `final_update_id < snapId` is discarded leaving the
state unchanged, and a diff with
`first_update_id ≤ snapId ≤ final_update_id` is applied on top of the
book, after which `final_update_id` equals the diff's
`final_update_id`. -/
theorem stepDepth_awaiting_bridge (st : SyncState) (msg : DepthOrderBookEvent)
    (fresh : OrderBookPartial) :
    (msg.final_update_id < st.snapId → stepDepth st msg fresh = st) ∧
    (msg.first_update_id ≤ st.snapId → st.snapId ≤ msg.final_update_id →
      stepDepth st msg fresh = { st with book := st.book.update msg } ∧
      (stepDepth st msg fresh).book.final_update_id = msg.final_update_id) := by
  constructor
  · intro h
    simp [stepDepth, h]
  · intro ha hb
    have hb1 : ¬ msg.final_update_id < st.snapId := not_lt.mpr hb
    constructor
    · simp [stepDepth, hb1, ha, hb]
    · simp [stepDepth, hb1, ha, hb, Orderbook.update]

/-- C2 witness: the spec's scenario — snapshot id 200, stale diff with
`final_update_id = 190` discarded, bridging diff `{195, 205}` applied
yielding `final_update_id = 205`. -/
theorem stepDepth_awaiting_bridge_witness :
    stepDepth { book := (Orderbook.new "ethusdt" 0).applySnapshot fresh200, snapId := 200 }
        { event_time := 7, first_update_id := 185, final_update_id := 190,
          previous_final_update_id := 184, bids := [⟨9, 1⟩], asks := [] } freshD =
      { book := (Orderbook.new "ethusdt" 0).applySnapshot fresh200, snapId := 200 } ∧
    (stepDepth { book := (Orderbook.new "ethusdt" 0).applySnapshot fresh200, snapId := 200 }
        { event_time := 8, first_update_id := 195, final_update_id := 205,
          previous_final_update_id := 194, bids := [⟨10, 1⟩], asks := [] }
        freshD).book.final_update_id = 205 :=
  ⟨(stepDepth_awaiting_bridge
      { book := (Orderbook.new "ethusdt" 0).applySnapshot fresh200, snapId := 200 }
      { event_time := 7, first_update_id := 185, final_update_id := 190,
        previous_final_update_id := 184, bids := [⟨9, 1⟩], asks := [] } freshD).1 (by decide),
   ((stepDepth_awaiting_bridge
      { book := (Orderbook.new "ethusdt" 0).applySnapshot fresh200, snapId := 200 }
      { event_time := 8, first_update_id := 195, final_update_id := 205,
        previous_final_update_id := 194, bids := [⟨10, 1⟩], asks := [] } freshD).2
      (by decide) (by decide)).2⟩

/-! ### C7 -/

/-- C7: evaluation of the code at the failing input.  After the resync
triggered by `msgFail`, the book has been rebuilt from `fresh200`
(`final_update_id = 200`) but `snapId` still holds the ORIGINAL snapshot
id 100 — the source rebinds `partial_init` in the inner scope of the
resync branch, so the outer binding used by the loop's comparisons never
changes.  The next diff `msgStale` is stale for the new snapshot
(150 < 200) and the spec requires it to be discarded, yet the loop
applies it (bridging checked against 100), mutating the book down to
`final_update_id = 150`. -/
theorem run_depth_resync_stale_snapshot_id :
    stAfterResync.book.final_update_id = 200 ∧
    stAfterResync.snapId = 100 ∧
    msgStale.final_update_id < fresh200.last_update_id ∧
    (stepDepth stAfterResync msgStale freshD).book ≠ stAfterResync.book ∧
    (stepDepth stAfterResync msgStale freshD).book.final_update_id = 150 := by
  decide

/-! ### C3 -/

/-- C3 counterexample: `Orderbook::partial` inserts snapshot levels with
no zero-quantity check, so applying a snapshot whose bid list contains
`(10, 0)` leaves the zero-quantity level stored in the book — the price
is not absent afterwards. -/
theorem applySnapshot_stores_zero_qty :
    ((10 : Rat), (0 : Rat)) ∈ ((Orderbook.new "ethusdt" 0).applyOps [BookOp.snap zeroSnap]).bids ∧
    mapFind 10 ((Orderbook.new "ethusdt" 0).applyOps [BookOp.snap zeroSnap]).bids = some 0 := by
  decide

/-- C3 (amended): restrict snapshots to ones whose levels all have
non-zero quantity (diff messages stay arbitrary — their zero-quantity
entries delete rather than insert).  Then every book reachable from a
zero-free book stores no zero-quantity level on either side. -/
theorem applyOps_no_zero_level (ob : Orderbook) (ops : List BookOp)
    (hops : ∀ op ∈ ops, GoodOp op) (h0 : NoZeroBook ob) :
    NoZeroBook (ob.applyOps ops) := by
  induction ops generalizing ob with
  | nil => exact h0
  | cons op rest ih =>
    have hop := hops op (List.mem_cons_self op rest)
    have hrest : ∀ o ∈ rest, GoodOp o := fun o ho => hops o (List.mem_cons_of_mem op ho)
    have hstep : NoZeroBook (ob.applyOp op) := by
      cases op with
      | snap d =>
        exact ⟨noZeroM_insertLevels hop.1 (fun pq h => absurd h (List.not_mem_nil pq)),
          noZeroM_insertLevels hop.2 (fun pq h => absurd h (List.not_mem_nil pq))⟩
      | diff d => exact ⟨noZeroM_updateLevels h0.1, noZeroM_updateLevels h0.2⟩
    exact ih (ob.applyOp op) hrest hstep

/-- C3 witness: a snapshot, then a diff that deletes via quantity zero,
then another diff — the resulting book is zero-free. -/
theorem applyOps_no_zero_level_witness :
    NoZeroBook ((Orderbook.new "ethusdt" 0).applyOps
      [BookOp.snap snap100,
       BookOp.diff { event_time := 2, first_update_id := 101, final_update_id := 105,
                     previous_final_update_id := 100, bids := [⟨10, 0⟩], asks := [⟨21/2, 4⟩] },
       BookOp.diff msgBridge]) :=
  applyOps_no_zero_level (Orderbook.new "ethusdt" 0)
    [BookOp.snap snap100,
     BookOp.diff { event_time := 2, first_update_id := 101, final_update_id := 105,
                   previous_final_update_id := 100, bids := [⟨10, 0⟩], asks := [⟨21/2, 4⟩] },
     BookOp.diff msgBridge]
    (by decide) (by decide)

/-! ### C9 -/

/-- The second component of `verifyRun` is the receiver, untouched. -/
theorem verifyRun_snd (ob : Orderbook) (pu_id : Nat) (c : Bool) :
    (ob.verifyRun pu_id c).2 = ob := by
  unfold Orderbook.verifyRun
  split
  · split
    · split <;> rfl
    · rfl
  · rfl

/-- C9: `verify` never mutates the book — after the call (state-passing
translation of the `&mut self` receiver) the symbol, timestamp,
`final_update_id` and both maps are identical to their values before. -/
theorem verify_no_mutation (ob : Orderbook) (pu_id : Nat) (c : Bool) :
    (ob.verifyRun pu_id c).2.symbol = ob.symbol ∧
    (ob.verifyRun pu_id c).2.timestamp = ob.timestamp ∧
    (ob.verifyRun pu_id c).2.final_update_id = ob.final_update_id ∧
    (ob.verifyRun pu_id c).2.bids = ob.bids ∧
    (ob.verifyRun pu_id c).2.asks = ob.asks := by
  rw [verifyRun_snd]
  exact ⟨rfl, rfl, rfl, rfl, rfl⟩

/-! ### C4 -/

/-- C4: `verify(pu_id, check)` returns true iff
`final_update_id = pu_id` and, when `check` is set and both sides are
non-empty, additionally `best_bid < best_ask` (so it returns false
whenever both sides are non-empty and `best_bid ≥ best_ask`). -/
theorem verify_iff_spec (ob : Orderbook) (pu_id : Nat) (c : Bool) :
    ob.verify pu_id c = true ↔
      (ob.final_update_id = pu_id ∧
        (c = true → ∀ bb ∈ ob.best_bid, ∀ ba ∈ ob.best_ask, bb.1 < ba.1)) := by
  cases c with
  | false =>
    rw [show ob.verify pu_id false = decide (ob.final_update_id = pu_id) from rfl]
    simp
  | true =>
    have hv0 : ob.verify pu_id true
        = (if 0 < ob.bids.length ∧ 0 < ob.asks.length then
             (if (ob.best_bid.getD (0, 0)).1 ≥ (ob.best_ask.getD (0, 0)).1 then
               ((false : Bool), ob)
              else (decide (ob.final_update_id = pu_id), ob))
           else (decide (ob.final_update_id = pu_id), ob)).1 := rfl
    by_cases hlen : 0 < ob.bids.length ∧ 0 < ob.asks.length
    · obtain ⟨bb, hbb⟩ : ∃ x, ob.best_bid = some x := by
        rcases h : ob.bids.reverse with _ | ⟨a, t⟩
        · rw [List.reverse_eq_nil_iff] at h
          rw [h] at hlen
          exact absurd hlen.1 (by simp)
        · exact ⟨a, by rw [Orderbook.best_bid, h]; rfl⟩
      obtain ⟨ba, hba⟩ : ∃ x, ob.best_ask = some x := by
        rcases h : ob.asks with _ | ⟨a, t⟩
        · rw [h] at hlen
          exact absurd hlen.2 (by simp)
        · exact ⟨a, by rw [Orderbook.best_ask, h]; rfl⟩
      rw [hv0, if_pos hlen, hbb, hba]
      simp only [Option.getD_some]
      by_cases hc : bb.1 ≥ ba.1
      · rw [if_pos hc]
        simp [not_lt.mpr hc]
      · rw [if_neg hc]
        simp [lt_of_not_ge hc]
    · have h0 : ob.best_bid = none ∨ ob.best_ask = none := by
        rcases not_and_or.mp hlen with h | h
        · have hnil : ob.bids = [] :=
            List.length_eq_zero.mp (Nat.eq_zero_of_not_pos h)
          exact Or.inl (by rw [Orderbook.best_bid, hnil]; rfl)
        · have hnil : ob.asks = [] :=
            List.length_eq_zero.mp (Nat.eq_zero_of_not_pos h)
          exact Or.inr (by rw [Orderbook.best_ask, hnil]; rfl)
      rw [hv0, if_neg hlen]
      rcases h0 with h0 | h0 <;> simp [h0]

/-! ### C5 -/

/-- Membership in the map built by inserting a snapshot's level list into
a cleared map, for level lists with pairwise-distinct prices. -/
theorem mem_insertLevels_iff {l : List Level} (hnd : (l.map Level.price).Nodup)
    (p q : Rat) : (p, q) ∈ insertLevels l [] ↔ (⟨p, q⟩ : Level) ∈ l := by
  have hrev : (l.reverse.map Level.price).Nodup := by
    rw [List.map_reverse, List.nodup_reverse]
    exact hnd
  have hs : SortedMap (insertLevels l []) := sortedMap_insertLevels List.Pairwise.nil
  rw [mem_iff_mapFind hs, mapFind_insertLevels]
  rcases hf : findLevel p l.reverse with _ | q'
  · constructor
    · intro h
      cases h
    · intro hm
      have hsome : findLevel p l.reverse = some q :=
        (findLevel_eq_some_iff_mem hrev).mpr (List.mem_reverse.mpr hm)
      rw [hf] at hsome
      cases hsome
  · constructor
    · intro h
      injection h with h
      subst h
      exact List.mem_reverse.mp ((findLevel_eq_some_iff_mem hrev).mp hf)
    · intro hm
      have hsome : findLevel p l.reverse = some q :=
        (findLevel_eq_some_iff_mem hrev).mpr (List.mem_reverse.mpr hm)
      rw [hf] at hsome
      injection hsome with h
      rw [h]

/-- C5: `apply_snapshot` resets the book to exactly the snapshot — ids
taken from the snapshot and, for snapshots whose sides have
pairwise-distinct prices, each side holds precisely the snapshot's level
list, with nothing surviving from the prior state. -/
theorem applySnapshot_roundtrip (ob : Orderbook) (d : OrderBookPartial)
    (hb : (d.bids.map Level.price).Nodup) (ha : (d.asks.map Level.price).Nodup) :
    (ob.applySnapshot d).final_update_id = d.last_update_id ∧
    (ob.applySnapshot d).timestamp = d.event_time ∧
    (∀ p q : Rat, ((p, q) ∈ (ob.applySnapshot d).bids ↔ (⟨p, q⟩ : Level) ∈ d.bids)) ∧
    (∀ p q : Rat, ((p, q) ∈ (ob.applySnapshot d).asks ↔ (⟨p, q⟩ : Level) ∈ d.asks)) :=
  ⟨rfl, rfl, fun p q => mem_insertLevels_iff hb p q, fun p q => mem_insertLevels_iff ha p q⟩

/-- C5 witness: resetting the junk book with `snap100`. -/
theorem applySnapshot_roundtrip_witness :
    (junkBook.applySnapshot snap100).final_update_id = snap100.last_update_id ∧
    (((10 : Rat), (5 : Rat)) ∈ (junkBook.applySnapshot snap100).bids ↔
      (⟨10, 5⟩ : Level) ∈ snap100.bids) ∧
    (((7 : Rat), (1 : Rat)) ∈ (junkBook.applySnapshot snap100).bids ↔
      (⟨7, 1⟩ : Level) ∈ snap100.bids) :=
  ⟨(applySnapshot_roundtrip junkBook snap100 (by decide) (by decide)).1,
   (applySnapshot_roundtrip junkBook snap100 (by decide) (by decide)).2.2.1 10 5,
   (applySnapshot_roundtrip junkBook snap100 (by decide) (by decide)).2.2.1 7 1⟩

/-! ### C6 -/

/-- C6: `apply_diff` takes the diff's `final_update_id` and `event_time`,
and pointwise: a price named by the diff ends at its (last-listed)
quantity — deleted when that quantity is zero — while every price not
named keeps its previous quantity. -/
theorem update_diff_spec (ob : Orderbook) (d : DepthOrderBookEvent)
    (hb : SortedMap ob.bids) (ha : SortedMap ob.asks) :
    (ob.update d).final_update_id = d.final_update_id ∧
    (ob.update d).timestamp = d.event_time ∧
    (∀ p : Rat, mapFind p (ob.update d).bids =
      match findLevel p d.bids.reverse with
      | some q => if q = 0 then none else some q
      | none => mapFind p ob.bids) ∧
    (∀ p : Rat, mapFind p (ob.update d).asks =
      match findLevel p d.asks.reverse with
      | some q => if q = 0 then none else some q
      | none => mapFind p ob.asks) :=
  ⟨rfl, rfl, fun p => mapFind_updateLevels p d.bids hb,
   fun p => mapFind_updateLevels p d.asks ha⟩

/-- C6 witness: the scenario — applying `diffDel` to `bookSnap` removes
price 10 from the bid side and sets `final_update_id = 105`. -/
theorem update_diff_spec_witness :
    (bookSnap.update diffDel).final_update_id = 105 ∧
    mapFind 10 (bookSnap.update diffDel).bids = none := by
  have h := update_diff_spec bookSnap diffDel (by decide) (by decide)
  refine ⟨h.1, ?_⟩
  rw [h.2.2.1 10]
  decide

/-! ### C8 -/

/-- C8: `get_depth(n)` yields at most `n` levels per side, the ask prices
strictly ascending (best to worst), the bid prices strictly descending
(best to worst), and each returned price paired positionally with exactly
the quantity the book stores at that price. -/
theorem get_depth_ordered_spec (ob : Orderbook) (n : Nat)
    (hb : SortedMap ob.bids) (ha : SortedMap ob.asks) :
    ∃ r, ob.get_depth n = some r ∧
      r.asks_price.length ≤ n ∧ r.bids_price.length ≤ n ∧
      r.asks_price.Pairwise (· < ·) ∧ r.bids_price.Pairwise (· > ·) ∧
      (∀ pq ∈ r.asks_price.zip r.asks_qty, mapFind pq.1 ob.asks = some pq.2) ∧
      (∀ pq ∈ r.bids_price.zip r.bids_qty, mapFind pq.1 ob.bids = some pq.2) := by
  refine ⟨_, rfl, ?_, ?_, ?_, ?_, ?_, ?_⟩
  · exact List.length_take_le n _
  · exact List.length_take_le n _
  · exact List.Pairwise.sublist (List.take_sublist n _)
      (ha.map Prod.fst (fun a b h => h))
  · refine List.Pairwise.sublist (List.take_sublist n _) ?_
    rw [List.pairwise_reverse]
    exact hb.map Prod.fst (fun a b h => h)
  · intro pq hpq
    have hzip : ((ob.asks.map Prod.fst).take n).zip ((ob.asks.map Prod.snd).take n)
        = ob.asks.take n := by
      rw [← List.map_take, ← List.map_take, List.zip_map']
      simp
    rw [hzip] at hpq
    exact mapFind_eq_some_of_mem ha (by simpa using List.take_subset n _ hpq)
  · intro pq hpq
    have hzip : ((ob.bids.map Prod.fst).reverse.take n).zip
          ((ob.bids.map Prod.snd).reverse.take n)
        = ob.bids.reverse.take n := by
      rw [← List.map_reverse, ← List.map_reverse, ← List.map_take, ← List.map_take,
        List.zip_map']
      simp
    rw [hzip] at hpq
    have hmem : pq ∈ ob.bids.reverse := List.take_subset n _ hpq
    exact mapFind_eq_some_of_mem hb (by simpa using List.mem_reverse.mp hmem)

/-- C8 witness: the depth-2 query on the concrete synced book. -/
theorem get_depth_ordered_spec_witness :
    ∃ r, bookSnap.get_depth 2 = some r ∧
      r.asks_price.length ≤ 2 ∧ r.bids_price.length ≤ 2 ∧
      r.asks_price.Pairwise (· < ·) ∧ r.bids_price.Pairwise (· > ·) ∧
      (∀ pq ∈ r.asks_price.zip r.asks_qty, mapFind pq.1 bookSnap.asks = some pq.2) ∧
      (∀ pq ∈ r.bids_price.zip r.bids_qty, mapFind pq.1 bookSnap.bids = some pq.2) :=
  get_depth_ordered_spec bookSnap 2 (by decide) (by decide)

/-! ### C10 -/

/-- C10: `get_depth` always returns `Some`, and on each side the price
and quantity sequences have equal length `min n (side length)` — in
particular all four are empty for an empty book. -/
theorem get_depth_total_lengths (ob : Orderbook) (n : Nat) :
    ∃ r, ob.get_depth n = some r ∧
      r.asks_price.length = min n ob.asks.length ∧
      r.asks_qty.length = min n ob.asks.length ∧
      r.bids_price.length = min n ob.bids.length ∧
      r.bids_qty.length = min n ob.bids.length := by
  refine ⟨_, rfl, ?_, ?_, ?_, ?_⟩ <;>
    simp [List.length_take]
